import Mathlib

/-!
A verification development for an information-retrieval benchmark system
(four ranking models over a tokenized corpus, an LLM-as-judge relevance
oracle with a persistent cache, and a DCG/nDCG evaluation pipeline).

The definitions below are a shallow embedding of the Python sources:
  * `src/corpus.py`         — tokenizer, stopwords, preprocessing
  * `src/models/booleanModel.py` — boolean query parsing / RPN evaluation
  * `src/models/BM25Model.py`    — BM25 ranking
  * `src/models/vectorSpaceModel.py` — TF-IDF / cosine ranking
  * `src/models/languageModel.py`    — Jelinek-Mercer language model
  * `src/llm.py`            — DCG/nDCG, the judge heuristic, the judge
                              cache, and the benchmark orchestrator
Python floats are modelled as real numbers, Python ints as `Int`/`Nat`,
Python dicts as insertion-ordered association lists, and raised
exceptions as `Except` values.
-/

namespace SearchSys

/-- ASCII alphanumeric character test: the character class `[a-z0-9]`
with `re.IGNORECASE` used by the shared tokenizer regex in
`src/corpus.py` (ASCII fragment, which is all the corpus uses). -/
def isTokChar (c : Char) : Bool :=
  ('a' ≤ c && c ≤ 'z') || ('A' ≤ c && c ≤ 'Z') || ('0' ≤ c && c ≤ '9')

/-- ASCII lower-casing of a character (Python `str.lower` on ASCII). -/
def lowerChar (c : Char) : Char :=
  if 'A' ≤ c && c ≤ 'Z' then Char.ofNat (c.toNat + 32) else c

/-- ASCII upper-casing of a character (Python `str.upper` on ASCII). -/
def upperChar (c : Char) : Char :=
  if 'a' ≤ c && c ≤ 'z' then Char.ofNat (c.toNat - 32) else c

/-- ASCII whitespace test (Python `str.split()` / `str.strip()` on the
whitespace that occurs in this repository's queries). -/
def isWsChar (c : Char) : Bool :=
  c = ' ' || c = '\t' || c = '\n' || c = '\r'

/-- Scanner state for the shared tokenizer regex
`[a-z0-9]+(?:'[a-z0-9]+)?` of `src/corpus.py` (`_TOKEN_RE.finditer`):
outside a match, inside the first alphanumeric run, just after an
apostrophe (which only joins the match when an alphanumeric follows),
or inside the run after the apostrophe. -/
inductive TokMode where
  | out
  | run1 (cur : List Char)
  | apos (cur : List Char)
  | run2 (cur : List Char)

/-- One-pass scanner for `[a-z0-9]+(?:'[a-z0-9]+)?`: greedy
leftmost-longest matching, one character per step.  A character that
ends a match cannot start one (it is not alphanumeric), so scanning
simply continues past it. -/
def tokScan : TokMode → List Char → List (List Char)
  | TokMode.out, [] => []
  | TokMode.run1 cur, [] => [cur]
  | TokMode.apos cur, [] => [cur]
  | TokMode.run2 cur, [] => [cur]
  | TokMode.out, c :: rest =>
    if isTokChar c then tokScan (TokMode.run1 [c]) rest else tokScan TokMode.out rest
  | TokMode.run1 cur, c :: rest =>
    if isTokChar c then tokScan (TokMode.run1 (cur ++ [c])) rest
    else if c = '\'' then tokScan (TokMode.apos cur) rest
    else cur :: tokScan TokMode.out rest
  | TokMode.apos cur, c :: rest =>
    if isTokChar c then tokScan (TokMode.run2 (cur ++ ['\'', c])) rest
    else cur :: tokScan TokMode.out rest
  | TokMode.run2 cur, c :: rest =>
    if isTokChar c then tokScan (TokMode.run2 (cur ++ [c])) rest
    else cur :: tokScan TokMode.out rest

/-- Embeds `tokenize` of `src/corpus.py`: all matches of
`[a-z0-9]+(?:'[a-z0-9]+)?` (case-insensitive), lower-cased. -/
def tokenize (s : String) : List String :=
  (tokScan TokMode.out s.data).map fun t => String.mk (t.map lowerChar)

/-- The stopword list of `src/corpus.py` (`STOPWORDS`; the Python set is
modelled by list membership). -/
def STOPWORDS : List String :=
  ["a", "an", "and", "are", "as", "at", "be", "by", "for", "from",
   "has", "he", "in", "is", "it", "its", "of", "on", "that", "the",
   "to", "was", "were", "will", "with", "the", "this", "but", "they",
   "have", "had", "what", "when", "where", "who", "which", "why", "how",
   "all", "each", "every", "both", "few", "more", "most", "other", "some",
   "such", "no", "nor", "not", "only", "own", "same", "so", "than", "too",
   "very", "can", "just", "should", "now", "one", "two", "three"]

/-- Embeds `preprocess` of `src/corpus.py` with an explicit stopword set. -/
def preprocessWith (stopwords : List String) (text : String) : List String :=
  let tokens := tokenize text
  if tokens = [] then [] else tokens.filter (fun t => t ∉ stopwords)

/-- Embeds `preprocess` of `src/corpus.py` with the default `STOPWORDS`. -/
def preprocess (text : String) : List String :=
  preprocessWith STOPWORDS text

/-- Word character of the judge heuristic's private regex `[\w']+` in
`LLMJudge._heuristic_score` (`src/llm.py`): ASCII alphanumerics,
underscore, and apostrophes in any position. -/
def isWordChar (c : Char) : Bool :=
  isTokChar c || c = '_' || c = '\''

/-- Scanner for `re.findall(r"[\w']+", s)`: maximal runs of word
characters; `cur` is the run collected so far. -/
def wtokAux (cur : List Char) : List Char → List (List Char)
  | [] => if cur = [] then [] else [cur]
  | c :: rest =>
    if isWordChar c then wtokAux (cur ++ [c]) rest
    else if cur = [] then wtokAux [] rest
    else cur :: wtokAux [] rest

/-- The private tokenizer of `LLMJudge._heuristic_score`
(`src/llm.py`): lower-case the text, then take all `[\w']+` runs. -/
def wtokenize (s : String) : List String :=
  (wtokAux [] (s.data.map lowerChar)).map String.mk

/-! ### Boolean model (`src/models/booleanModel.py`) -/

/-- Token kinds of the boolean query language (`_BoolToken.kind`). -/
inductive BKind where
  | term
  | andK
  | orK
  | notK
  | lparen
  | rparen
deriving DecidableEq

/-- Embeds `_BoolToken` of `src/models/booleanModel.py`. -/
structure BoolToken where
  kind : BKind
  value : String
deriving DecidableEq

/-- Python `str.strip` on ASCII whitespace (as used on the raw query). -/
def stripChars (l : List Char) : List Char :=
  ((l.dropWhile isWsChar).reverse.dropWhile isWsChar).reverse

/-- Python `str.split()` (split on whitespace runs, dropping empties);
`cur` is the chunk collected so far. -/
def splitWsAux (cur : List Char) : List Char → List (List Char)
  | [] => if cur = [] then [] else [cur]
  | c :: rest =>
    if isWsChar c then
      if cur = [] then splitWsAux [] rest else cur :: splitWsAux [] rest
    else splitWsAux (cur ++ [c]) rest

/-- The char loop of `_tokenize_boolean_query`: split the query into
whitespace-separated chunks while making each parenthesis its own
part. -/
def splitPartsAux (buf : List Char) : List Char → List (List Char)
  | [] => splitWsAux [] buf
  | c :: rest =>
    if c = '(' || c = ')' then
      splitWsAux [] buf ++ [c] :: splitPartsAux [] rest
    else splitPartsAux (buf ++ [c]) rest

/-- Upper-case a raw query part (Python `p.upper()`), ASCII. -/
def strUpper (p : String) : String :=
  String.mk (p.data.map upperChar)

/-- The `for t in norm_terms` loop of `_tokenize_boolean_query`: a
multi-token term becomes TERM tokens joined with AND. -/
def joinWithAnd : List String → List BoolToken
  | [] => []
  | [t] => [⟨BKind.term, t⟩]
  | t :: rest => ⟨BKind.term, t⟩ :: ⟨BKind.andK, ""⟩ :: joinWithAnd rest

/-- Classification of one raw part inside `_tokenize_boolean_query`:
parentheses, case-insensitive keywords, or a term pushed through the
shared `preprocess` pipeline (terms that stopword-filter to nothing are
dropped silently). -/
def classifyPart (p : String) : List BoolToken :=
  if p = "(" then [⟨BKind.lparen, ""⟩]
  else if p = ")" then [⟨BKind.rparen, ""⟩]
  else if strUpper p = "AND" then [⟨BKind.andK, ""⟩]
  else if strUpper p = "OR" then [⟨BKind.orK, ""⟩]
  else if strUpper p = "NOT" then [⟨BKind.notK, ""⟩]
  else joinWithAnd (preprocessWith STOPWORDS p)

/-- Embeds `_tokenize_boolean_query` of `src/models/booleanModel.py`. -/
def tokenize_boolean_query (query : String) : List BoolToken :=
  let raw := stripChars query.data
  if raw = [] then []
  else ((splitPartsAux [] raw).map fun part => classifyPart (String.mk part)).flatten

/-- Operator precedence of the shunting-yard conversion
(`_to_rpn`: NOT > AND > OR). -/
def precOf : BKind → ℕ
  | BKind.notK => 3
  | BKind.andK => 2
  | BKind.orK => 1
  | _ => 0

/-- Membership of a token kind in the `prec` table of `_to_rpn`. -/
def isOpKind : BKind → Bool
  | BKind.notK => true
  | BKind.andK => true
  | BKind.orK => true
  | _ => false

/-- The `while stack and stack[-1].kind in prec and
prec[stack[-1].kind] >= prec[tok.kind]` loop of `_to_rpn`; the operator
stack has its top at the head.  Returns (popped, remaining stack). -/
def popWhileGe (p : ℕ) : List BoolToken → List BoolToken × List BoolToken
  | [] => ([], [])
  | t :: rest =>
    if isOpKind t.kind && p ≤ precOf t.kind then
      let (po, re) := popWhileGe p rest
      (t :: po, re)
    else ([], t :: rest)

/-- The `while stack and stack[-1].kind != "LPAREN"` loop of `_to_rpn`
(on a closing parenthesis). -/
def popUntilLparen : List BoolToken → List BoolToken × List BoolToken
  | [] => ([], [])
  | t :: rest =>
    if t.kind = BKind.lparen then ([], t :: rest)
    else
      let (po, re) := popUntilLparen rest
      (t :: po, re)

/-- The `if stack and stack[-1].kind == "LPAREN": stack.pop()` step of
`_to_rpn` after a closing parenthesis. -/
def dropLparenHead : List BoolToken → List BoolToken
  | [] => []
  | s :: ss => if s.kind = BKind.lparen then ss else s :: ss

/-- The main loop of `_to_rpn` (shunting-yard); `out` is the output
queue, `stack` the operator stack with its top at the head; at the end
the stack is flushed onto the output. -/
def toRpnAux : List BoolToken → List BoolToken → List BoolToken → List BoolToken
  | [], out, stack => out ++ stack
  | t :: ts, out, stack =>
    match t.kind with
    | BKind.term => toRpnAux ts (out ++ [t]) stack
    | BKind.lparen => toRpnAux ts out (t :: stack)
    | BKind.rparen =>
      let (po, re) := popUntilLparen stack
      toRpnAux ts (out ++ po) (dropLparenHead re)
    | _ =>
      let (po, re) := popWhileGe (precOf t.kind) stack
      toRpnAux ts (out ++ po) (t :: re)

/-- Embeds `_to_rpn` of `src/models/booleanModel.py`. -/
def to_rpn (tokens : List BoolToken) : List BoolToken :=
  toRpnAux tokens [] []

/-- One step of `_eval_rpn`'s loop; the value stack has its top at the
head, and a pop from an empty stack yields `false` exactly as the
`stack.pop() if stack else False` guards do.  LPAREN/RPAREN tokens fall
through every `elif` in the Python loop, leaving the stack unchanged. -/
def evalStep (docSet : List String) (stack : List Bool) (t : BoolToken) : List Bool :=
  match t.kind with
  | BKind.term => decide (t.value ∈ docSet) :: stack
  | BKind.notK =>
    match stack with
    | a :: rest => (!a) :: rest
    | [] => [!false]
  | BKind.andK =>
    match stack with
    | b :: a :: rest => (a && b) :: rest
    | [b] => [false && b]
    | [] => [false && false]
  | BKind.orK =>
    match stack with
    | b :: a :: rest => (a || b) :: rest
    | [b] => [false || b]
    | [] => [false || false]
  | _ => stack

/-- Embeds `_eval_rpn` of `src/models/booleanModel.py`: evaluate the postfix
token list against the document's token set; an empty final stack is
`false` (`bool(stack[-1]) if stack else False`). -/
def eval_rpn (rpn : List BoolToken) (doc_terms : List String) : Bool :=
  match rpn.foldl (evalStep doc_terms) [] with
  | b :: _ => b
  | [] => false

/-- The implicit-AND insertion loop of `BooleanModel.search` (an AND is
inserted between two consecutive TERM tokens); `last` is the kind of
the previously appended token, if any. -/
def insertAndAux (last : Option BKind) : List BoolToken → List BoolToken
  | [] => []
  | t :: rest =>
    if last = some BKind.term ∧ t.kind = BKind.term then
      ⟨BKind.andK, ""⟩ :: t :: insertAndAux (some t.kind) rest
    else t :: insertAndAux (some t.kind) rest

/-- Truncation by an optional `top_k` (the trailing
`if top_k is not None: return ranked[:top_k]` of every model). -/
def takeOpt (k : Option ℕ) (l : List (String × ℝ)) : List (String × ℝ) :=
  match k with
  | none => l
  | some n => l.take n

/-- Embeds `BooleanModel.search` of `src/models/booleanModel.py`: the corpus
is the insertion-ordered dict `doc_id -> token list`; matching
documents all score `1.0` and are sorted by document id (Python's
stable `sort(key=lambda x: x[0])` is insertion sort on a non-strict
order). -/
def boolean_search (corpus : List (String × List String)) (query : String)
    (top_k : Option ℕ) : List (String × ℝ) :=
  let tokens := tokenize_boolean_query query
  if tokens = [] then []
  else
    let rpn := to_rpn (insertAndAux none tokens)
    let results := (corpus.filter fun p => eval_rpn rpn p.2).map fun p => (p.1, (1 : ℝ))
    let sorted := results.insertionSort (fun a b => a.1 ≤ b.1)
    takeOpt top_k sorted

/-! ### Score ordering shared by the ranked models

Python's `sorted(scores.items(), key=lambda x: x[1], reverse=True)` is a
stable descending sort on the score; a stable sort on a non-strict
total order is insertion sort with that order. -/

/-- Relation "a is ranked at least as high as b": descending order on scores. -/
def byScoreDesc (a b : String × ℝ) : Prop := b.2 ≤ a.2

noncomputable instance : DecidableRel byScoreDesc :=
  fun a b => Real.decidableLE b.2 a.2

instance : IsTotal (String × ℝ) byScoreDesc :=
  ⟨fun a b => le_total b.2 a.2⟩

instance : IsTrans (String × ℝ) byScoreDesc :=
  ⟨fun _ _ _ h1 h2 => le_trans h2 h1⟩

/-! ### BM25 model (`src/models/BM25Model.py`) -/

/-- Document frequency of a term (`BM25Model._compute_df`; also the
membership test `term in self.doc_freqs`, which holds iff the count is
positive). -/
def bm25_df (corpus : List (String × List String)) (t : String) : ℕ :=
  (corpus.filter fun p => t ∈ p.2).length

/-- Embeds `BM25Model._idf`: `ln((N - n + 0.5)/(n + 0.5) + 1)` where `N` is
the corpus size and `n` the term's document frequency. -/
noncomputable def bm25_idf (N n : ℕ) : ℝ :=
  Real.log (((N : ℝ) - (n : ℝ) + 1 / 2) / ((n : ℝ) + 1 / 2) + 1)

/-- Embeds `BM25Model._search_all`: the `scores` defaultdict receives an entry
for a document exactly when some query term is in the vocabulary
(`term in self.doc_freqs`), in corpus order, and the ranking is the
stable descending sort on the accumulated score. -/
noncomputable def bm25_search_all (corpus : List (String × List String)) (k1 b : ℝ)
    (query : String) : List (String × ℝ) :=
  let query_tokens := preprocess query
  let N := corpus.length
  let avgdl : ℝ :=
    if corpus = [] then 0
    else (((corpus.map fun p => p.2.length).sum : ℕ) : ℝ) / (N : ℝ)
  let present := query_tokens.filter fun t => 0 < bm25_df corpus t
  let scores := corpus.filterMap fun p =>
    if present = [] then none
    else
      some (p.1, (present.map fun t =>
        let tf : ℝ := (p.2.count t : ℝ)
        let idf := bm25_idf N (bm25_df corpus t)
        let denomNorm : ℝ := if 0 < avgdl then 1 - b + b * ((p.2.length : ℝ) / avgdl) else 1
        idf * (tf * (k1 + 1)) / (tf + k1 * denomNorm)).sum)
  scores.insertionSort byScoreDesc

/-- Embeds `BM25Model.search`: `_search_all` truncated by `top_k`. -/
noncomputable def bm25_search (corpus : List (String × List String)) (k1 b : ℝ)
    (query : String) (top_k : Option ℕ) : List (String × ℝ) :=
  takeOpt top_k (bm25_search_all corpus k1 b query)

/-! ### Vector space model (`src/models/vectorSpaceModel.py`) -/

/-- Embeds `VectorSpaceModel._compute_idf`: `log10(N / df)` with a zero
document frequency replaced by 1. -/
noncomputable def vsm_idf (corpus : List (String × List String)) (w : String) : ℝ :=
  let df := (corpus.filter fun p => w ∈ p.2).length
  Real.logb 10 ((corpus.length : ℝ) / (if 0 < df then (df : ℝ) else 1))

/-- Embeds `VectorSpaceModel._compute_tf_idf_vector`: one dense vector over
the vocabulary ordering; `word in token_counts` holds iff the count is
positive, and the weight is `(1 + log10 tf) * idf`. -/
noncomputable def tf_idf_vector (corpus : List (String × List String))
    (vocab : List String) (tokens : List String) : List ℝ :=
  vocab.map fun w =>
    if 0 < tokens.count w then
      (1 + Real.logb 10 (tokens.count w : ℝ)) * vsm_idf corpus w
    else 0

/-- Embeds `np.linalg.norm`: the Euclidean norm of a dense vector. -/
noncomputable def vecNorm (v : List ℝ) : ℝ :=
  Real.sqrt ((v.map fun x => x ^ 2).sum)

/-- Embeds `np.dot` on two dense vectors of equal length. -/
noncomputable def vecDot (v w : List ℝ) : ℝ :=
  (List.zipWith (fun x y => x * y) v w).sum

/-- Embeds `VectorSpaceModel.search`: cosine similarity per document, `0.0`
when either norm is zero, ranked by the stable descending sort (the
document vectors and norms precomputed at construction are inlined,
which yields the same values). -/
noncomputable def vsm_search (corpus : List (String × List String)) (vocab : List String)
    (query : String) (top_k : Option ℕ) : List (String × ℝ) :=
  let query_tokens := preprocess query
  let qVec := tf_idf_vector corpus vocab query_tokens
  let qNorm := vecNorm qVec
  let scores := corpus.map fun p =>
    let dVec := tf_idf_vector corpus vocab p.2
    let dNorm := vecNorm dVec
    (p.1, if 0 < qNorm ∧ 0 < dNorm then vecDot qVec dVec / (qNorm * dNorm) else 0)
  takeOpt top_k (scores.insertionSort byScoreDesc)

/-! ### Language model with Jelinek-Mercer smoothing
(`src/models/languageModel.py`) -/

/-- The collection unigram model of `LanguageModelJM.__init__`: the
Python `collection_probs` dict (`count/total` for terms of positive
count, `.get` default `0.0` otherwise, empty when the collection is
empty) is modelled by this extensionally equal function. -/
noncomputable def lm_collection_prob (corpus : List (String × List String))
    (t : String) : ℝ :=
  let collection_len : ℕ := (corpus.map fun p => p.2.length).sum
  if 0 < collection_len then
    (((corpus.map fun p => p.2.count t).sum : ℕ) : ℝ) / (collection_len : ℝ)
  else 0

/-- The per-document loop body of `LanguageModelJM.search`: sum over
query terms of `log(max(1e-12, (1-lam) * P(t|doc) + lam *
P(t|collection)))`. -/
noncomputable def lm_doc_score (corpus : List (String × List String)) (lam : ℝ)
    (query_tokens doc_tokens : List String) : ℝ :=
  (query_tokens.map fun t =>
    let pTermDoc : ℝ :=
      if 0 < doc_tokens.length then (doc_tokens.count t : ℝ) / (doc_tokens.length : ℝ) else 0
    Real.log (max (1 / 10 ^ 12)
      ((1 - lam) * pTermDoc + lam * lm_collection_prob corpus t))).sum

/-- Embeds `LanguageModelJM.search`: the per-document log-likelihoods, ranked
by the stable descending sort and truncated by `top_k`. -/
noncomputable def lm_search (corpus : List (String × List String)) (lam : ℝ)
    (query : String) (top_k : Option ℕ) : List (String × ℝ) :=
  let query_tokens := preprocess query
  let scores := corpus.map fun p => (p.1, lm_doc_score corpus lam query_tokens p.2)
  takeOpt top_k (scores.insertionSort byScoreDesc)

/-! ### Evaluation metrics (`src/llm.py`) -/

/-- The `for rank, rel in enumerate(rels_k[1:], start=2)` loop of
`dcg_at_k`: the element at 1-based rank `rank` contributes
`rel / log2(rank + 1)`. -/
noncomputable def dcgLoop : ℕ → List ℤ → ℝ
  | _, [] => 0
  | rank, r :: rest => (r : ℝ) / Real.logb 2 ((rank : ℝ) + 1) + dcgLoop (rank + 1) rest

/-- Truncate or right-pad a label list with zeros to exactly `k`
entries (the first three lines of `dcg_at_k`). -/
def padTo (k : ℕ) (rels : List ℤ) : List ℤ :=
  let t := rels.take k
  t ++ List.replicate (k - t.length) 0

/-- Embeds `dcg_at_k` of `src/llm.py`. -/
noncomputable def dcg_at_k (rels : List ℤ) (k : ℕ) : ℝ :=
  match padTo k rels with
  | [] => 0
  | r :: rest => (r : ℝ) + dcgLoop 2 rest

/-- Python `sorted(_, reverse=True)` on integer labels. -/
def sortDescInt (l : List ℤ) : List ℤ :=
  l.insertionSort (fun a b => b ≤ a)

/-- Embeds `ndcg_at_k` of `src/llm.py`: the ideal list is the descending sort
of the first `k` labels, zero-padded to `k`; the quotient is guarded by
`idcg > 0`. -/
noncomputable def ndcg_at_k (rels : List ℤ) (k : ℕ) : ℝ :=
  let dcg := dcg_at_k rels k
  let ideal0 := sortDescInt (rels.take k)
  let ideal := ideal0 ++ List.replicate (k - ideal0.length) 0
  let idcg := dcg_at_k ideal k
  if 0 < idcg then dcg / idcg else 0

/-! ### The judge heuristic and cache (`src/llm.py`) -/

/-- Embeds `LLMJudge._heuristic_score`: tokens of length at least 3 from the
private `[\w']+` tokenizer, overlap ratio thresholded at 0.6 and 0.25
(float thresholds modelled as the rationals they denote). -/
def heuristic_score (query doc_text : String) : ℤ :=
  let q_tokens := (wtokenize query).filter fun t => 3 ≤ t.length
  let d_tokens := (wtokenize doc_text).filter fun t => 3 ≤ t.length
  if q_tokens = [] then 0
  else
    let overlap := (q_tokens.filter fun t => t ∈ d_tokens).length
    let ratio : ℚ := (overlap : ℚ) / ((max 1 q_tokens.length : ℕ) : ℚ)
    if 3 / 5 ≤ ratio then 2
    else if 1 / 4 ≤ ratio then 1
    else 0

/-- Modelled from the spec for comparison (claim C4): the same
heuristic but tokenizing "with the shared Tokenizer" (`tokenize` of
`src/corpus.py`) as the specification describes, instead of the
private `[\w']+` tokenizer the code actually uses. -/
def heuristic_score_sharedTok (query doc_text : String) : ℤ :=
  let q_tokens := (tokenize query).filter fun t => 3 ≤ t.length
  let d_tokens := (tokenize doc_text).filter fun t => 3 ≤ t.length
  if q_tokens = [] then 0
  else
    let overlap := (q_tokens.filter fun t => t ∈ d_tokens).length
    let ratio : ℚ := (overlap : ℚ) / ((max 1 q_tokens.length : ℕ) : ℚ)
    if 3 / 5 ≤ ratio then 2
    else if 1 / 4 ≤ ratio then 1
    else 0

/-- The configuration triple hashed into the cache key
(`LLMJudgeConfig`: backend, gemini model id, groq model id). -/
structure JudgeConfig where
  backend : String
  gemini_model : String
  groq_model : String

/-- Embeds `LLMJudge._cache_key` SHA-256-hashes the NUL-separated
serialization of (backend, gemini model, groq model, query, doc id,
doc text); the hash of that serialization is modelled by the
serialization itself — a deterministic function of the same data,
which is exactly what the cache semantics consume. -/
def cache_key (cfg : JudgeConfig) (query doc_id doc_text : String) : String :=
  cfg.backend ++ "\x00" ++ cfg.gemini_model ++ "\x00" ++ cfg.groq_model ++ "\x00" ++
    query ++ "\x00" ++ doc_id ++ "\x00" ++ doc_text

/-- The mutable state of an `LLMJudge`: the in-memory cache dict (the
JSON file persists exactly this mapping) plus an instrumentation
counter of backend/heuristic invocations. -/
structure JudgeState where
  cache : List (String × ℤ)
  backendCalls : ℕ
deriving DecidableEq

/-- Python `key in self._cache` / `self._cache[key]` on the cache
dict. -/
def lookupCache (cache : List (String × ℤ)) (key : String) : Option ℤ :=
  (cache.find? fun p => p.1 == key).map Prod.snd

/-- Embeds `LLMJudge.score`: on a cache hit return the cached label with no
backend work; on a miss obtain the label from the resolved backend
(remote digit parse or `_heuristic_score`, abstracted as the
deterministic `backendEval`), store it, and count the invocation. -/
def judge_score (backendEval : String → String → ℤ) (cfg : JudgeConfig)
    (st : JudgeState) (query doc_id doc_text : String) : ℤ × JudgeState :=
  let key := cache_key cfg query doc_id doc_text
  match lookupCache st.cache key with
  | some v => (v, st)
  | none =>
    let v := backendEval query doc_text
    (v, ⟨(key, v) :: st.cache, st.backendCalls + 1⟩)

/-! ### Benchmark orchestrator (`src/llm.py`) -/

/-- The per-query loop of `benchmark`: each query is evaluated by
`evaluate_models` (abstracted as `evalq`, whose exceptions are `Except`
errors); the first failure prints remediation guidance and raises
`SystemExit(1)` (modelled as `Except.error 1`), otherwise the loop
accumulates per-query results and, after the loop, the report file is
written (the `Bool` in the success value). -/
def evalQueriesAux (evalq : String → Except String (List (String × ℝ))) :
    List String → List (String × List (String × ℝ)) →
    Except ℕ (List (String × List (String × ℝ)) × Bool)
  | [], acc => Except.ok (acc.reverse, true)
  | q :: rest, acc =>
    match evalq q with
    | Except.error _ => Except.error 1
    | Except.ok r => evalQueriesAux evalq rest ((q, r) :: acc)

/-- Embeds `benchmark` of `src/llm.py`, reduced to its control flow: run the
queries in order, abort the whole run with exit status 1 on the first
evaluation error (no report written), else succeed with every
per-query result and the written report. -/
def benchmark_run (evalq : String → Except String (List (String × ℝ)))
    (queries : List String) :
    Except ℕ (List (String × List (String × ℝ)) × Bool) :=
  evalQueriesAux evalq queries []

/-! ## Helper lemmas -/

/-- The BM25 idf argument collapses: `(N - n + 1/2)/(n + 1/2) + 1 = (N + 1)/(n + 1/2)`. -/
lemma bm25_idf_eq (N n : ℕ) :
    bm25_idf N n = Real.log (((N : ℝ) + 1) / ((n : ℝ) + 1 / 2)) := by
  unfold bm25_idf
  congr 1
  have hn : ((n : ℝ) + 1 / 2) ≠ 0 := by positivity
  field_simp
  ring

/-- The BM25 idf is strictly positive whenever the document frequency
does not exceed the number of documents. -/
lemma bm25_idf_pos (N n : ℕ) (h : n ≤ N) : 0 < bm25_idf N n := by
  rw [bm25_idf_eq]
  apply Real.log_pos
  rw [lt_div_iff₀ (by positivity)]
  have : (n : ℝ) ≤ (N : ℝ) := by exact_mod_cast h
  linarith

/-- The BM25 idf is antitone in the document frequency. -/
lemma bm25_idf_antitone (N n₁ n₂ : ℕ) (h : n₁ ≤ n₂) :
    bm25_idf N n₂ ≤ bm25_idf N n₁ := by
  rw [bm25_idf_eq, bm25_idf_eq]
  have h12 : (0 : ℝ) < (n₂ : ℝ) + 1 / 2 := by positivity
  have h11 : (0 : ℝ) < (n₁ : ℝ) + 1 / 2 := by positivity
  have hN : (0 : ℝ) ≤ (N : ℝ) + 1 := by positivity
  apply Real.log_le_log (by positivity)
  apply div_le_div_of_nonneg_left hN h11
  have : (n₁ : ℝ) ≤ (n₂ : ℝ) := by exact_mod_cast h
  linarith

/-- If some query fails, the benchmark loop aborts with exit status 1,
whatever has been accumulated so far. -/
lemma evalQueriesAux_error (evalq : String → Except String (List (String × ℝ))) :
    ∀ (queries : List String) (acc : List (String × List (String × ℝ))),
    (∃ q ∈ queries, ∃ e, evalq q = Except.error e) →
    evalQueriesAux evalq queries acc = Except.error 1 := by
  intro queries
  induction queries with
  | nil => intro acc h; simp at h
  | cons q rest ih =>
    intro acc h
    rcases h with ⟨q0, hq0, e, he⟩
    rcases List.mem_cons.mp hq0 with h1 | h1
    · subst h1
      simp [evalQueriesAux, he]
    · cases hq : evalq q with
      | error e2 => simp [evalQueriesAux, hq]
      | ok r => simpa [evalQueriesAux, hq] using ih _ ⟨q0, h1, e, he⟩

/-- The `dcg_at_k` loop as an indexed sum: starting at rank `r`, the
`j`-th remaining label contributes `label / log2(r + j + 1)`. -/
lemma dcgLoop_eq_sum (l : List ℤ) :
    ∀ r : ℕ, dcgLoop r l =
      ∑ j ∈ Finset.range l.length, (l.getD j 0 : ℝ) / Real.logb 2 ((r + j + 1 : ℕ) : ℝ) := by
  induction l with
  | nil => intro r; simp [dcgLoop]
  | cons a l ih =>
    intro r
    rw [dcgLoop, ih (r + 1), List.length_cons, Finset.sum_range_succ']
    have hhead : ((a :: l).getD 0 0 : ℝ) / Real.logb 2 ((r + 0 + 1 : ℕ) : ℝ) =
        (a : ℝ) / Real.logb 2 ((r : ℝ) + 1) := by
      have harg : ((r + 0 + 1 : ℕ) : ℝ) = (r : ℝ) + 1 := by push_cast; ring
      rw [harg]
      rfl
    have hsum : ∀ j ∈ Finset.range l.length,
        ((a :: l).getD (j + 1) 0 : ℝ) / Real.logb 2 ((r + (j + 1) + 1 : ℕ) : ℝ) =
        (l.getD j 0 : ℝ) / Real.logb 2 ((r + 1 + j + 1 : ℕ) : ℝ) := by
      intro j _
      have harg : r + (j + 1) + 1 = r + 1 + j + 1 := by omega
      rw [harg]
      rfl
    rw [Finset.sum_congr rfl hsum, hhead, add_comm]

/-- The padded label list has exactly `k` entries. -/
lemma padTo_length (k : ℕ) (rels : List ℤ) : (padTo k rels).length = k := by
  simp only [padTo, List.length_append, List.length_replicate, List.length_take]
  omega

/-- Feeding `dcg_at_k` a list already zero-padded to `k` is the same as
feeding it the unpadded list. -/
lemma dcg_pad_invariant (l : List ℤ) (k : ℕ) (h : l.length ≤ k) :
    dcg_at_k (l ++ List.replicate (k - l.length) 0) k = dcg_at_k l k := by
  have hp : padTo k (l ++ List.replicate (k - l.length) 0) = padTo k l := by
    have hlen : (l ++ List.replicate (k - l.length) 0).length = k := by
      simp only [List.length_append, List.length_replicate]; omega
    simp only [padTo]
    rw [List.take_of_length_le (le_of_eq hlen), List.take_of_length_le h, hlen]
    simp
  unfold dcg_at_k
  rw [hp]

/-- The float threshold tests of `_heuristic_score` as integer
comparisons: for a non-empty query-token list of length `n`,
`overlap / n ≥ 0.6` iff `3n ≤ 5·overlap` and `overlap / n ≥ 0.25` iff
`n ≤ 4·overlap`. -/
lemma ratio_threshold_iff (ov n : ℕ) (hn : 0 < n) :
    ((3 : ℚ) / 5 ≤ (ov : ℚ) / (n : ℚ) ↔ 3 * n ≤ 5 * ov) ∧
    ((1 : ℚ) / 4 ≤ (ov : ℚ) / (n : ℚ) ↔ n ≤ 4 * ov) := by
  have hnq : (0 : ℚ) < (n : ℚ) := by exact_mod_cast hn
  constructor
  · rw [div_le_div_iff₀ (by norm_num) hnq]
    constructor
    · intro h
      have h2 : ((3 * n : ℕ) : ℚ) ≤ ((5 * ov : ℕ) : ℚ) := by push_cast; linarith
      exact_mod_cast h2
    · intro h
      have h2 : ((3 * n : ℕ) : ℚ) ≤ ((5 * ov : ℕ) : ℚ) := by exact_mod_cast h
      push_cast at h2
      linarith
  · rw [div_le_div_iff₀ (by norm_num) hnq]
    constructor
    · intro h
      have h2 : ((1 * n : ℕ) : ℚ) ≤ ((4 * ov : ℕ) : ℚ) := by push_cast; linarith
      have h3 : 1 * n ≤ 4 * ov := by exact_mod_cast h2
      omega
    · intro h
      have h2 : ((n : ℕ) : ℚ) ≤ ((4 * ov : ℕ) : ℚ) := by exact_mod_cast h
      push_cast at h2
      linarith

/-- Embeds `_heuristic_score` with its rational threshold tests replaced by
the equivalent integer comparisons (kernel-computable form). -/
lemma heuristic_score_int_char (q d : String) :
    heuristic_score q d =
      (let qt := (wtokenize q).filter fun t => 3 ≤ t.length
       let dt := (wtokenize d).filter fun t => 3 ≤ t.length
       let overlap := (qt.filter fun t => t ∈ dt).length
       if qt = [] then 0
       else if 3 * qt.length ≤ 5 * overlap then 2
       else if qt.length ≤ 4 * overlap then 1
       else 0) := by
  simp only [heuristic_score]
  by_cases hq : (wtokenize q).filter (fun t => 3 ≤ t.length) = []
  · simp [hq]
  · have hn : 0 < ((wtokenize q).filter fun t => 3 ≤ t.length).length :=
      List.length_pos.mpr hq
    have hmax : max 1 ((wtokenize q).filter fun t => 3 ≤ t.length).length =
        ((wtokenize q).filter fun t => 3 ≤ t.length).length := by omega
    have hiff := ratio_threshold_iff
      (((wtokenize q).filter fun t => 3 ≤ t.length).filter
        (fun t => t ∈ (wtokenize d).filter fun t => 3 ≤ t.length)).length
      ((wtokenize q).filter fun t => 3 ≤ t.length).length hn
    simp only [hq, if_false, hmax, hiff.1, hiff.2]

/-- The analogous kernel-computable form for the spec-modelled variant
that uses the shared tokenizer. -/
lemma heuristic_sharedTok_int_char (q d : String) :
    heuristic_score_sharedTok q d =
      (let qt := (tokenize q).filter fun t => 3 ≤ t.length
       let dt := (tokenize d).filter fun t => 3 ≤ t.length
       let overlap := (qt.filter fun t => t ∈ dt).length
       if qt = [] then 0
       else if 3 * qt.length ≤ 5 * overlap then 2
       else if qt.length ≤ 4 * overlap then 1
       else 0) := by
  simp only [heuristic_score_sharedTok]
  by_cases hq : (tokenize q).filter (fun t => 3 ≤ t.length) = []
  · simp [hq]
  · have hn : 0 < ((tokenize q).filter fun t => 3 ≤ t.length).length :=
      List.length_pos.mpr hq
    have hmax : max 1 ((tokenize q).filter fun t => 3 ≤ t.length).length =
        ((tokenize q).filter fun t => 3 ≤ t.length).length := by omega
    have hiff := ratio_threshold_iff
      (((tokenize q).filter fun t => 3 ≤ t.length).filter
        (fun t => t ∈ (tokenize d).filter fun t => 3 ≤ t.length)).length
      ((tokenize q).filter fun t => 3 ≤ t.length).length hn
    simp only [hq, if_false, hmax, hiff.1, hiff.2]

/-! ## Claims -/

/-- C4 (corrected): the judge's local heuristic computes its label by
tokenizing query and document with its own private `[\w']+` tokenizer
(NOT the shared Tokenizer of `src/corpus.py`, as originally claimed —
the private one also accepts underscores and free-standing
apostrophes), keeping tokens of length ≥ 3, and thresholding
`overlap / len(query_tokens)` at 0.6 (label 2) and 0.25 (label 1),
with label 0 whenever no query token is long enough. -/
theorem c4_heuristic_characterization (q d : String) :
    heuristic_score q d =
      (let qt := (wtokenize q).filter fun t => 3 ≤ t.length
       let dt := (wtokenize d).filter fun t => 3 ≤ t.length
       let overlap := (qt.filter fun t => t ∈ dt).length
       if qt = [] then 0
       else if 3 * qt.length ≤ 5 * overlap then 2
       else if qt.length ≤ 4 * overlap then 1
       else 0) :=
  heuristic_score_int_char q d

/-- C4 counterexample: on query `"foo_bar"` against document
`"foo bar"` the code's private tokenizer keeps `foo_bar` as one token
(overlap 0, label 0), while the shared Tokenizer the claim prescribes
splits it into `foo`, `bar` (overlap 1, label 2). -/
theorem c4_counterexample :
    heuristic_score "foo_bar" "foo bar" = 0 ∧
    heuristic_score_sharedTok "foo_bar" "foo bar" = 2 := by
  constructor
  · rw [heuristic_score_int_char]
    decide
  · rw [heuristic_sharedTok_int_char]
    decide

/-- C1 (corrected): `dcg_at_k(labels, k)` first truncates or
right-pads the label sequence with zeros to exactly `k` entries and
then returns `labels[0] + Σ_{i=2..k} labels[i-1] / log2(i + 1)` — the
discount of the label at 1-based rank `i` is `log2(i + 1)`, not the
`log2(i)` of the original claim (matching the spec's own worked
example `1 + 2/log2(3) + 0/log2(4)`). -/
theorem c1_dcg_formula (rels : List ℤ) (k : ℕ) :
    dcg_at_k rels k = ((padTo k rels).getD 0 0 : ℝ) +
      ∑ i ∈ Finset.Icc 2 k, ((padTo k rels).getD (i - 1) 0 : ℝ) / Real.logb 2 ((i : ℝ) + 1) := by
  unfold dcg_at_k
  cases hp : padTo k rels with
  | nil =>
    have hk : k = 0 := by
      have := padTo_length k rels
      rw [hp] at this
      simpa using this.symm
    subst hk
    simp
  | cons r rest =>
    have hk : k = rest.length + 1 := by
      have := padTo_length k rels
      rw [hp] at this
      simpa using this.symm
    show (r : ℝ) + dcgLoop 2 rest = _
    rw [dcgLoop_eq_sum rest 2, hk, ← Nat.Ico_succ_right, Finset.sum_Ico_eq_sum_range]
    have hrange : Nat.succ (rest.length + 1) - 2 = rest.length := by omega
    rw [hrange]
    congr 1
    apply Finset.sum_congr rfl
    intro j _
    have h1 : (2 + j - 1) = j + 1 := by omega
    have h2 : ((2 + j : ℕ) : ℝ) + 1 = ((2 + j + 1 : ℕ) : ℝ) := by push_cast; ring
    rw [h1, h2]
    rfl

/-- C1 counterexample: at `labels = [0, 1]`, `k = 2`, the code returns
`1 / log2 3 < 1` while the claimed formula `labels[0] +
Σ_{i=2..k} labels[i-1]/log2(i)` evaluates to `1 / log2 2 = 1`. -/
theorem c1_counterexample :
    dcg_at_k [0, 1] 2 ≠ ((padTo 2 [0, 1]).getD 0 0 : ℝ) +
      ∑ i ∈ Finset.Icc 2 2, ((padTo 2 [0, 1]).getD (i - 1) 0 : ℝ) / Real.logb 2 (i : ℝ) := by
  have hpad : padTo 2 [0, 1] = [0, 1] := rfl
  have hlhs : dcg_at_k [0, 1] 2 = 1 / Real.logb 2 3 := by
    norm_num [dcg_at_k, padTo, dcgLoop]
  have hlog : 1 < Real.logb 2 3 := by
    have h2 : Real.logb 2 2 = 1 := Real.logb_self_eq_one (by norm_num)
    have := Real.logb_lt_logb (b := 2) (by norm_num) (by norm_num : (0 : ℝ) < 2)
      (by norm_num : (2 : ℝ) < 3)
    linarith
  have hrhs : ((padTo 2 [0, 1]).getD 0 0 : ℝ) +
      ∑ i ∈ Finset.Icc 2 2, ((padTo 2 [0, 1]).getD (i - 1) 0 : ℝ) / Real.logb 2 (i : ℝ) = 1 := by
    rw [Finset.Icc_self, Finset.sum_singleton, hpad]
    norm_num [Real.logb_self_eq_one]
  rw [hlhs, hrhs]
  have : 1 / Real.logb 2 3 < 1 := by
    rw [div_lt_one (by linarith)]
    exact hlog
  linarith

/-- C5 (corrected): `ndcg_at_k(labels, k)` equals `dcg_at_k(labels, k)`
divided by the DCG of the descending sort of the FIRST `k` labels (not
of the full label sequence, as originally claimed), and equals 0 when
that ideal DCG is 0 — always a real number, never an error. -/
theorem c5_ndcg_formula (rels : List ℤ) (k : ℕ) :
    ndcg_at_k rels k =
      if 0 < dcg_at_k (sortDescInt (rels.take k)) k then
        dcg_at_k rels k / dcg_at_k (sortDescInt (rels.take k)) k
      else 0 := by
  have hlen : (sortDescInt (rels.take k)).length ≤ k := by
    rw [sortDescInt, List.length_insertionSort, List.length_take]
    omega
  simp only [ndcg_at_k]
  rw [dcg_pad_invariant _ _ hlen]

/-- C5 counterexample: at `labels = [1, 2]`, `k = 1`, the code sorts
only the first label and returns `1`, while the claimed formula with
the descending sort of the full sequence gives `1 / 2`. -/
theorem c5_counterexample :
    ndcg_at_k [1, 2] 1 ≠ dcg_at_k [1, 2] 1 / dcg_at_k (sortDescInt [1, 2]) 1 := by
  have h2 : dcg_at_k [1, 2] 1 = 1 := by
    show ((1 : ℤ) : ℝ) + 0 = 1
    norm_num
  have h3 : sortDescInt [1, 2] = [2, 1] := by decide
  have h4 : dcg_at_k [2, 1] 1 = 2 := by
    show ((2 : ℤ) : ℝ) + 0 = 2
    norm_num
  have h1 : ndcg_at_k [1, 2] 1 = 1 := by
    have hideal : sortDescInt ([1, 2].take 1) = [1] := by decide
    simp only [ndcg_at_k, hideal]
    norm_num
    show (if 0 < ((1 : ℤ) : ℝ) + 0 then (((1 : ℤ) : ℝ) + 0) / (((1 : ℤ) : ℝ) + 0) else 0) = 1
    norm_num
  rw [h1, h2, h3, h4]
  norm_num

/-- C2 (corrected): BM25's `idf = ln((N - n + 0.5)/(n + 0.5) + 1)` is
non-increasing as the document frequency `n` grows for fixed `N`, and —
contrary to the original claim — it is strictly positive for every
admissible document frequency `n ≤ N`: the `+ 1` inside the logarithm
makes the argument `(N + 1)/(n + 0.5) > 1`, so no clamping is ever
exercised. -/
theorem c2_bm25_idf_monotone_positive :
    (∀ N n₁ n₂ : ℕ, n₁ ≤ n₂ → bm25_idf N n₂ ≤ bm25_idf N n₁) ∧
    (∀ N n : ℕ, n ≤ N → 0 < bm25_idf N n) :=
  ⟨fun N n₁ n₂ h => bm25_idf_antitone N n₁ n₂ h, fun N n h => bm25_idf_pos N n h⟩

/-- C2 witness: the theorem instantiated at `N = 10`, document
frequencies 3 and 9. -/
theorem c2_witness :
    bm25_idf 10 9 ≤ bm25_idf 10 3 ∧ 0 < bm25_idf 10 9 :=
  ⟨c2_bm25_idf_monotone_positive.1 10 3 9 (by norm_num),
   c2_bm25_idf_monotone_positive.2 10 9 (by norm_num)⟩

/-- C2 counterexample: the claim "idf can be negative for terms
occurring in more than half the documents" is false — no document
frequency `n ≤ N` makes `BM25Model._idf` negative. -/
theorem c2_counterexample :
    ¬ ∃ N n : ℕ, n ≤ N ∧ bm25_idf N n < 0 := by
  rintro ⟨N, n, hle, hneg⟩
  exact absurd hneg (not_lt.mpr (le_of_lt (bm25_idf_pos N n hle)))

/-- C6 (confirmed): with a fixed backend configuration and model
identifiers, two successive `LLMJudge.score` calls on the same (query,
doc id, doc text) — starting from a cache that does not hold the key —
invoke the backend/heuristic exactly once: the first call computes and
caches the label, the second returns the identical label purely from
the cache, leaving the state untouched. -/
theorem c6_judge_cache_single_invocation
    (backendEval : String → String → ℤ) (cfg : JudgeConfig) (st : JudgeState)
    (query doc_id doc_text : String)
    (hmiss : lookupCache st.cache (cache_key cfg query doc_id doc_text) = none) :
    (judge_score backendEval cfg
        (judge_score backendEval cfg st query doc_id doc_text).2 query doc_id doc_text).1 =
      (judge_score backendEval cfg st query doc_id doc_text).1 ∧
    (judge_score backendEval cfg
        (judge_score backendEval cfg st query doc_id doc_text).2 query doc_id doc_text).2 =
      (judge_score backendEval cfg st query doc_id doc_text).2 ∧
    (judge_score backendEval cfg st query doc_id doc_text).2.backendCalls =
      st.backendCalls + 1 := by
  simp only [judge_score, hmiss]
  simp [lookupCache, List.find?]

/-- C6 witness: a cold cache, the heuristic backend, and a concrete
query/document pair. -/
theorem c6_witness :
    (judge_score heuristic_score
        ⟨"heuristic", "gemini-flash-lite-latest", "llama-3.1-8b-instant"⟩
        (judge_score heuristic_score
          ⟨"heuristic", "gemini-flash-lite-latest", "llama-3.1-8b-instant"⟩
          ⟨[], 0⟩ "machine learning" "d1" "machine learning basics").2
        "machine learning" "d1" "machine learning basics").1 =
      (judge_score heuristic_score
        ⟨"heuristic", "gemini-flash-lite-latest", "llama-3.1-8b-instant"⟩
        ⟨[], 0⟩ "machine learning" "d1" "machine learning basics").1 ∧
    (judge_score heuristic_score
        ⟨"heuristic", "gemini-flash-lite-latest", "llama-3.1-8b-instant"⟩
        (judge_score heuristic_score
          ⟨"heuristic", "gemini-flash-lite-latest", "llama-3.1-8b-instant"⟩
          ⟨[], 0⟩ "machine learning" "d1" "machine learning basics").2
        "machine learning" "d1" "machine learning basics").2 =
      (judge_score heuristic_score
        ⟨"heuristic", "gemini-flash-lite-latest", "llama-3.1-8b-instant"⟩
        ⟨[], 0⟩ "machine learning" "d1" "machine learning basics").2 ∧
    (judge_score heuristic_score
        ⟨"heuristic", "gemini-flash-lite-latest", "llama-3.1-8b-instant"⟩
        ⟨[], 0⟩ "machine learning" "d1" "machine learning basics").2.backendCalls =
      (0 : ℕ) + 1 :=
  c6_judge_cache_single_invocation heuristic_score
    ⟨"heuristic", "gemini-flash-lite-latest", "llama-3.1-8b-instant"⟩
    ⟨[], 0⟩ "machine learning" "d1" "machine learning basics" rfl

/-- C7 (confirmed): if evaluating any query of the benchmark raises
(a judge fatal error), the whole run terminates with exit status 1
(`SystemExit(1)`) and no report is produced: the success value — which
is the only place the report write happens — is never reached. -/
theorem c7_benchmark_abort (evalq : String → Except String (List (String × ℝ)))
    (queries : List String)
    (hfail : ∃ q ∈ queries, ∃ e, evalq q = Except.error e) :
    benchmark_run evalq queries = Except.error 1 :=
  evalQueriesAux_error evalq queries [] hfail

/-- C7 witness: a one-query benchmark whose evaluation always fails. -/
theorem c7_witness :
    benchmark_run (fun _ => Except.error "judge failure") ["q1"] = Except.error 1 :=
  c7_benchmark_abort (fun _ => Except.error "judge failure") ["q1"]
    ⟨"q1", by decide, "judge failure", rfl⟩

/-! ## Boolean-search membership helpers -/

/-- Anything returned by `BooleanModel.search` scores `1.0` and is a
corpus document whose token list satisfies the query's RPN. -/
lemma mem_boolean_search {corpus : List (String × List String)} {q : String}
    {k : Option ℕ} {p : String × ℝ} (h : p ∈ boolean_search corpus q k) :
    p.2 = 1 ∧ ∃ toks, (p.1, toks) ∈ corpus ∧
      eval_rpn (to_rpn (insertAndAux none (tokenize_boolean_query q))) toks = true := by
  simp only [boolean_search] at h
  by_cases ht : tokenize_boolean_query q = []
  · rw [if_pos ht] at h
    cases h
  · rw [if_neg ht] at h
    have h2 : p ∈ ((corpus.filter fun pr =>
        eval_rpn (to_rpn (insertAndAux none (tokenize_boolean_query q))) pr.2).map
          fun pr => (pr.1, (1 : ℝ))).insertionSort (fun a b => a.1 ≤ b.1) := by
      cases k with
      | none => exact h
      | some n => exact List.take_subset n _ h
    rw [List.mem_insertionSort] at h2
    obtain ⟨x, hx, hxp⟩ := List.mem_map.mp h2
    obtain ⟨hxc, hxe⟩ := List.mem_filter.mp hx
    refine ⟨by rw [← hxp], x.2, ?_, by simpa using hxe⟩
    have : (p.1, x.2) = x := by rw [← hxp]
    rw [this]
    exact hxc

/-- A corpus document whose token list satisfies the query's RPN is
returned (with score `1.0`) by an un-truncated `BooleanModel.search`. -/
lemma boolean_search_mem_intro {corpus : List (String × List String)} {q : String}
    {did : String} {toks : List String}
    (hmem : (did, toks) ∈ corpus)
    (htok : tokenize_boolean_query q ≠ [])
    (heval : eval_rpn (to_rpn (insertAndAux none (tokenize_boolean_query q))) toks = true) :
    (did, (1 : ℝ)) ∈ boolean_search corpus q none := by
  simp only [boolean_search, if_neg htok]
  show (did, (1 : ℝ)) ∈ List.insertionSort _ _
  rw [List.mem_insertionSort]
  exact List.mem_map.mpr ⟨(did, toks), List.mem_filter.mpr ⟨hmem, by simpa using heval⟩, rfl⟩

/-- In an association list with `Nodup` keys, a key determines its
value. -/
lemma assoc_nodup_eq {l : List (String × List String)}
    (h : (l.map Prod.fst).Nodup) {a : String} {b1 b2 : List String}
    (h1 : (a, b1) ∈ l) (h2 : (a, b2) ∈ l) : b1 = b2 := by
  induction l with
  | nil => cases h1
  | cons x xs ih =>
    rw [List.map_cons, List.nodup_cons] at h
    rcases List.mem_cons.mp h1 with e1 | m1
    · rcases List.mem_cons.mp h2 with e2 | m2
      · rw [← e1] at e2
        exact (Prod.mk.injEq _ _ _ _).mp e2.symm |>.2
      · exfalso
        apply h.1
        rw [← e1]
        exact List.mem_map.mpr ⟨(a, b2), m2, rfl⟩
    · rcases List.mem_cons.mp h2 with e2 | m2
      · exfalso
        apply h.1
        rw [← e2]
        exact List.mem_map.mpr ⟨(a, b1), m1, rfl⟩
      · exact ih h.2 m1 m2

/-- If the document with a given id fails the query's RPN (and ids are
unique), that id is absent from the un-truncated result. -/
lemma boolean_search_not_mem {corpus : List (String × List String)} {q : String}
    {did : String} {toks : List String}
    (hnodup : (corpus.map Prod.fst).Nodup)
    (hmem : (did, toks) ∈ corpus)
    (heval : eval_rpn (to_rpn (insertAndAux none (tokenize_boolean_query q))) toks = false) :
    did ∉ (boolean_search corpus q none).map Prod.fst := by
  intro habs
  obtain ⟨p, hp, hfst⟩ := List.mem_map.mp habs
  obtain ⟨_, toks2, hmem2, heval2⟩ := mem_boolean_search hp
  rw [hfst] at hmem2
  rw [assoc_nodup_eq hnodup hmem hmem2] at heval
  rw [heval] at heval2
  cases heval2

/-- A query whose RPN evaluates to `false` on every token list matches
no document at all. -/
lemma boolean_search_eq_nil {corpus : List (String × List String)} {q : String}
    {k : Option ℕ}
    (h : ∀ toks, eval_rpn (to_rpn (insertAndAux none (tokenize_boolean_query q))) toks = false) :
    boolean_search corpus q k = [] := by
  simp only [boolean_search]
  by_cases ht : tokenize_boolean_query q = []
  · rw [if_pos ht]
  · rw [if_neg ht]
    have hf : corpus.filter (fun pr =>
        eval_rpn (to_rpn (insertAndAux none (tokenize_boolean_query q))) pr.2) = [] := by
      rw [List.filter_eq_nil_iff]
      intro p _
      simp [h p.2]
    rw [hf]
    cases k <;> simp [takeOpt]

/-! ## Claims about the boolean model -/

/-- C3 (corrected): on a document whose token set is exactly `{a, b}`,
the stopword `a` is silently dropped from every query, so — contrary
to the original claim for `"a AND b"` and `"a OR c"` — the outcomes
are: `"NOT c"` includes the document; `"a AND b"` and `"a AND c"`
degenerate to a one-operand AND and match nothing at all; `"a OR c"`
and `"(a OR c) AND NOT b"` degenerate to a test of `c` and exclude the
document. -/
theorem c3_boolean_outcomes (corpus : List (String × List String))
    (hnodup : (corpus.map Prod.fst).Nodup)
    (did : String) (toks : List String)
    (hmem : (did, toks) ∈ corpus)
    (hset : ∀ t, t ∈ toks ↔ t = "a" ∨ t = "b") :
    (did, (1 : ℝ)) ∈ boolean_search corpus "NOT c" none ∧
    boolean_search corpus "a AND b" none = [] ∧
    boolean_search corpus "a AND c" none = [] ∧
    did ∉ (boolean_search corpus "a OR c" none).map Prod.fst ∧
    did ∉ (boolean_search corpus "(a OR c) AND NOT b" none).map Prod.fst := by
  have hc : "c" ∉ toks := by
    intro h
    rcases (hset "c").mp h with h1 | h1 <;> exact absurd h1 (by decide)
  have hcd : decide ("c" ∈ toks) = false := decide_eq_false hc
  refine ⟨?_, ?_, ?_, ?_, ?_⟩
  · apply boolean_search_mem_intro hmem (by decide)
    show (!decide ("c" ∈ toks)) = true
    rw [hcd]
    rfl
  · exact boolean_search_eq_nil fun t => rfl
  · exact boolean_search_eq_nil fun t => rfl
  · apply boolean_search_not_mem hnodup hmem
    show decide ("c" ∈ toks) = false
    exact hcd
  · apply boolean_search_not_mem hnodup hmem
    show (decide ("c" ∈ toks) && !decide ("b" ∈ toks)) = false
    rw [hcd]
    rfl

/-- C3 witness: the one-document corpus `d1 ↦ [a, b]`. -/
theorem c3_witness :
    ("d1", (1 : ℝ)) ∈ boolean_search [("d1", ["a", "b"])] "NOT c" none ∧
    boolean_search [("d1", ["a", "b"])] "a AND b" none = [] ∧
    boolean_search [("d1", ["a", "b"])] "a AND c" none = [] ∧
    "d1" ∉ (boolean_search [("d1", ["a", "b"])] "a OR c" none).map Prod.fst ∧
    "d1" ∉ (boolean_search [("d1", ["a", "b"])] "(a OR c) AND NOT b" none).map Prod.fst :=
  c3_boolean_outcomes [("d1", ["a", "b"])] (by simp) "d1" ["a", "b"]
    (by simp) (fun t => by simp)

/-- C3 counterexample: on the corpus `d1 ↦ [a, b]` the queries
`"a AND b"` and `"a OR c"`, which the claim says must match the
document, match nothing. -/
theorem c3_counterexample :
    boolean_search [("d1", ["a", "b"])] "a AND b" none = [] ∧
    boolean_search [("d1", ["a", "b"])] "a OR c" none = [] :=
  ⟨rfl, rfl⟩

/-- C8 (corrected): `BooleanModel.search` is total — for every query
string (malformed boolean syntax included) and every corpus it returns
a well-formed result: each entry scores exactly `1.0` and names a
corpus document.  Operand-stack underflow reads `false`, but a
malformed expression does NOT always degenerate to non-matching (see
the counterexample, where a trailing NOT matches). -/
theorem c8_search_total (corpus : List (String × List String)) (q : String)
    (k : Option ℕ) :
    ∀ p ∈ boolean_search corpus q k, p.2 = 1 ∧ p.1 ∈ corpus.map Prod.fst := by
  intro p hp
  obtain ⟨h1, toks, hmem, _⟩ := mem_boolean_search hp
  exact ⟨h1, List.mem_map.mpr ⟨(p.1, toks), hmem, rfl⟩⟩

/-- C8 witness: the well-formedness facts at a concrete corpus, query
and returned entry. -/
theorem c8_witness :
    ("d1", (1 : ℝ)).2 = 1 ∧ ("d1", (1 : ℝ)).1 ∈ ([("d1", ["cat"])].map Prod.fst) :=
  c8_search_total [("d1", ["cat"])] "cat" none ("d1", (1 : ℝ)) (by
    rw [show boolean_search [("d1", ["cat"])] "cat" none = [("d1", (1 : ℝ))] from rfl]
    exact List.mem_singleton_self _)

/-- C8 counterexample: the malformed query `"b NOT"` (trailing NOT,
operand-stack underflow) MATCHES the document `d1 ↦ [x]` — it does not
degenerate to non-matching as claimed, although no error is raised. -/
theorem c8_counterexample :
    boolean_search [("d1", ["x"])] "b NOT" none = [("d1", (1 : ℝ))] :=
  rfl

/-! ## Language-model helpers -/

/-- The collection probability lies in `[0, 1]`. -/
lemma lm_collection_prob_mem (corpus : List (String × List String)) (t : String) :
    0 ≤ lm_collection_prob corpus t ∧ lm_collection_prob corpus t ≤ 1 := by
  simp only [lm_collection_prob]
  by_cases h : 0 < (corpus.map fun p => p.2.length).sum
  · rw [if_pos h]
    have hcount : (((corpus.map fun p => p.2.count t).sum : ℕ) : ℝ) ≤
        (((corpus.map fun p => p.2.length).sum : ℕ) : ℝ) := by
      have := List.sum_le_sum (l := corpus) (f := fun p => p.2.count t)
        (g := fun p => p.2.length) (fun p _ => List.count_le_length t p.2)
      exact_mod_cast this
    constructor
    · positivity
    · rw [div_le_one (by exact_mod_cast h)]
      exact hcount
  · rw [if_neg h]
    norm_num

/-- Each smoothed-probability logarithm is non-positive: the argument
of the log lies in `(0, 1]` whenever `lam ∈ [0, 1]`. -/
lemma lm_doc_score_nonpos (corpus : List (String × List String)) (lam : ℝ)
    (h0 : 0 ≤ lam) (h1 : lam ≤ 1) (query_tokens doc_tokens : List String) :
    lm_doc_score corpus lam query_tokens doc_tokens ≤ 0 := by
  simp only [lm_doc_score]
  have hterm : ∀ t ∈ query_tokens,
      (fun t => Real.log (max (1 / 10 ^ 12)
        ((1 - lam) * (if 0 < doc_tokens.length then
          (doc_tokens.count t : ℝ) / (doc_tokens.length : ℝ) else 0) +
          lam * lm_collection_prob corpus t))) t ≤ (fun _ => (0 : ℝ)) t := by
    intro t _
    apply Real.log_nonpos
    · positivity
    · apply max_le (by norm_num)
      have hpd : (0 : ℝ) ≤ (if 0 < doc_tokens.length then
          (doc_tokens.count t : ℝ) / (doc_tokens.length : ℝ) else 0) ∧
          (if 0 < doc_tokens.length then
            (doc_tokens.count t : ℝ) / (doc_tokens.length : ℝ) else 0) ≤ 1 := by
        by_cases hd : 0 < doc_tokens.length
        · rw [if_pos hd]
          constructor
          · positivity
          · rw [div_le_one (by exact_mod_cast hd)]
            exact_mod_cast List.count_le_length t doc_tokens
        · rw [if_neg hd]
          norm_num
      have hpc := lm_collection_prob_mem corpus t
      have e1 : (1 - lam) * (if 0 < doc_tokens.length then
          (doc_tokens.count t : ℝ) / (doc_tokens.length : ℝ) else 0) ≤ (1 - lam) * 1 :=
        mul_le_mul_of_nonneg_left hpd.2 (by linarith)
      have e2 : lam * lm_collection_prob corpus t ≤ lam * 1 :=
        mul_le_mul_of_nonneg_left hpc.2 h0
      linarith
  calc (query_tokens.map fun t => Real.log (max (1 / 10 ^ 12)
        ((1 - lam) * (if 0 < doc_tokens.length then
          (doc_tokens.count t : ℝ) / (doc_tokens.length : ℝ) else 0) +
          lam * lm_collection_prob corpus t))).sum
      ≤ (query_tokens.map fun _ => (0 : ℝ)).sum := List.sum_le_sum hterm
    _ = 0 := List.sum_eq_zero (by simp)

/-! ## Claim about the language model -/

/-- C9 (confirmed): for every corpus, every smoothing parameter
`lam ∈ [0, 1]`, every query and every `top_k`, each score returned by
`LanguageModelJM.search` is at most 0, and the returned list is sorted
in descending order of the total log-likelihood. -/
theorem c9_lm_nonpositive_sorted (corpus : List (String × List String)) (lam : ℝ)
    (query : String) (k : Option ℕ) (h0 : 0 ≤ lam) (h1 : lam ≤ 1) :
    (∀ p ∈ lm_search corpus lam query k, p.2 ≤ 0) ∧
    List.Sorted byScoreDesc (lm_search corpus lam query k) := by
  have hsorted : List.Sorted byScoreDesc
      ((corpus.map fun p => (p.1, lm_doc_score corpus lam (preprocess query) p.2)).insertionSort
        byScoreDesc) :=
    List.sorted_insertionSort byScoreDesc _
  constructor
  · intro p hp
    simp only [lm_search] at hp
    have hp2 : p ∈ (corpus.map fun pr =>
        (pr.1, lm_doc_score corpus lam (preprocess query) pr.2)).insertionSort byScoreDesc := by
      cases k with
      | none => exact hp
      | some n => exact List.take_subset n _ hp
    rw [List.mem_insertionSort] at hp2
    obtain ⟨x, _, hxp⟩ := List.mem_map.mp hp2
    rw [← hxp]
    exact lm_doc_score_nonpos corpus lam h0 h1 _ _
  · simp only [lm_search]
    cases k with
    | none => exact hsorted
    | some n => exact List.Pairwise.sublist (List.take_sublist n _) hsorted

/-- C9 witness: a concrete corpus, `lam = 1/2`, query `"x"`. -/
theorem c9_witness :
    (∀ p ∈ lm_search [("d1", ["x"]), ("d2", ["y"])] (1 / 2) "x" none, p.2 ≤ 0) ∧
    List.Sorted byScoreDesc (lm_search [("d1", ["x"]), ("d2", ["y"])] (1 / 2) "x" none) :=
  c9_lm_nonpositive_sorted [("d1", ["x"]), ("d2", ["y"])] (1 / 2) "x" none
    (by norm_num) (by norm_num)

/-! ## Empty-query helpers -/

/-- The shared tokenizer finds nothing in text without alphanumeric
characters. -/
lemma tokScan_out_nil : ∀ l : List Char, (∀ c ∈ l, isTokChar c = false) →
    tokScan TokMode.out l = [] := by
  intro l
  induction l with
  | nil => intro _; rfl
  | cons c rest ih =>
    intro h
    rw [tokScan, if_neg (by simp [h c (List.mem_cons_self c rest)])]
    exact ih fun x hx => h x (List.mem_cons_of_mem c hx)

/-- Embeds `tokenize` of a query with no alphanumeric characters is empty. -/
lemma tokenize_eq_nil {q : String} (h : ∀ c ∈ q.data, isTokChar c = false) :
    tokenize q = [] := by
  simp [tokenize, tokScan_out_nil q.data h]

/-- Embeds `preprocess` of a query with no alphanumeric characters is empty. -/
lemma preprocess_eq_nil {q : String} (h : ∀ c ∈ q.data, isTokChar c = false) :
    preprocess q = [] := by
  simp [preprocess, preprocessWith, tokenize_eq_nil h]

/-- Characters of `str.split()` chunks come from the accumulator or
the input. -/
lemma splitWsAux_chars : ∀ (l cur : List Char) (part : List Char),
    part ∈ splitWsAux cur l → ∀ c ∈ part, c ∈ cur ∨ c ∈ l := by
  intro l
  induction l with
  | nil =>
    intro cur part hp c hc
    by_cases h : cur = []
    · rw [splitWsAux, if_pos h] at hp
      cases hp
    · rw [splitWsAux, if_neg h] at hp
      rw [List.mem_singleton] at hp
      subst hp
      exact Or.inl hc
  | cons a rest ih =>
    intro cur part hp c hc
    rw [splitWsAux] at hp
    by_cases hws : isWsChar a
    · rw [if_pos hws] at hp
      by_cases h : cur = []
      · rw [if_pos h] at hp
        rcases ih [] part hp c hc with h2 | h2
        · cases h2
        · exact Or.inr (List.mem_cons_of_mem a h2)
      · rw [if_neg h] at hp
        rcases List.mem_cons.mp hp with h2 | h2
        · subst h2
          exact Or.inl hc
        · rcases ih [] part h2 c hc with h3 | h3
          · cases h3
          · exact Or.inr (List.mem_cons_of_mem a h3)
    · rw [if_neg hws] at hp
      rcases ih (cur ++ [a]) part hp c hc with h2 | h2
      · rcases List.mem_append.mp h2 with h3 | h3
        · exact Or.inl h3
        · rw [List.mem_singleton] at h3
          subst h3
          exact Or.inr (List.mem_cons_self c rest)
      · exact Or.inr (List.mem_cons_of_mem a h2)

/-- Characters of `_tokenize_boolean_query` raw parts come from the
buffer or the input. -/
lemma splitPartsAux_chars : ∀ (l buf : List Char) (part : List Char),
    part ∈ splitPartsAux buf l → ∀ c ∈ part, c ∈ buf ∨ c ∈ l := by
  intro l
  induction l with
  | nil =>
    intro buf part hp c hc
    rw [splitPartsAux] at hp
    rcases splitWsAux_chars buf [] part hp c hc with h | h
    · cases h
    · exact Or.inl h
  | cons a rest ih =>
    intro buf part hp c hc
    rw [splitPartsAux] at hp
    by_cases hpar : a = '(' || a = ')'
    · rw [if_pos hpar] at hp
      rcases List.mem_append.mp hp with h2 | h2
      · rcases splitWsAux_chars buf [] part h2 c hc with h3 | h3
        · cases h3
        · exact Or.inl h3
      · rcases List.mem_cons.mp h2 with h3 | h3
        · subst h3
          rw [List.mem_singleton] at hc
          subst hc
          exact Or.inr (List.mem_cons_self c rest)
        · rcases ih [] part h3 c hc with h4 | h4
          · cases h4
          · exact Or.inr (List.mem_cons_of_mem a h4)
    · rw [if_neg hpar] at hp
      rcases ih (buf ++ [a]) part hp c hc with h2 | h2
      · rcases List.mem_append.mp h2 with h3 | h3
        · exact Or.inl h3
        · rw [List.mem_singleton] at h3
          subst h3
          exact Or.inr (List.mem_cons_self c rest)
      · exact Or.inr (List.mem_cons_of_mem a h2)

/-- Embeds `str.strip` keeps only characters of the input. -/
lemma stripChars_subset {l : List Char} {c : Char} (h : c ∈ stripChars l) : c ∈ l := by
  simp only [stripChars, List.mem_reverse] at h
  have h2 := List.dropWhile_sublist (l := (l.dropWhile isWsChar).reverse) (p := isWsChar)
  have h3 := h2.mem h
  rw [List.mem_reverse] at h3
  exact (List.dropWhile_sublist isWsChar).mem h3

/-- Upper-casing fixes non-alphanumeric characters. -/
lemma upperChar_of_nonTok {c : Char} (h : isTokChar c = false) : upperChar c = c := by
  rw [upperChar, if_neg]
  intro hc
  rw [isTokChar] at h
  simp only [hc, Bool.true_or] at h
  cases h

/-- Upper-casing fixes strings without alphanumeric characters. -/
lemma strUpper_of_nonTok {p : String} (h : ∀ c ∈ p.data, isTokChar c = false) :
    strUpper p = p := by
  have h2 : p.data.map upperChar = p.data := by
    have hfix : ∀ a ∈ p.data, upperChar a = a := fun a ha => upperChar_of_nonTok (h a ha)
    calc p.data.map upperChar = p.data.map id := List.map_congr_left hfix
      _ = p.data := List.map_id _
  show String.mk (p.data.map upperChar) = p
  rw [h2]

/-- Classifying a part without alphanumeric characters can only
produce parenthesis tokens: keywords need letters and terms are
tokenized away. -/
lemma classifyPart_nonTok {p : String} (h : ∀ c ∈ p.data, isTokChar c = false) :
    ∀ t ∈ classifyPart p, t.kind = BKind.lparen ∨ t.kind = BKind.rparen := by
  intro t ht
  have hup := strUpper_of_nonTok h
  rw [classifyPart, hup] at ht
  by_cases h1 : p = "("
  · rw [if_pos h1, List.mem_singleton] at ht
    subst ht
    exact Or.inl rfl
  rw [if_neg h1] at ht
  by_cases h2 : p = ")"
  · rw [if_pos h2, List.mem_singleton] at ht
    subst ht
    exact Or.inr rfl
  rw [if_neg h2] at ht
  by_cases h3 : p = "AND"
  · exfalso
    have : isTokChar 'A' = false := h 'A' (by rw [h3]; decide)
    exact absurd this (by decide)
  rw [if_neg h3] at ht
  by_cases h4 : p = "OR"
  · exfalso
    have : isTokChar 'O' = false := h 'O' (by rw [h4]; decide)
    exact absurd this (by decide)
  rw [if_neg h4] at ht
  by_cases h5 : p = "NOT"
  · exfalso
    have : isTokChar 'N' = false := h 'N' (by rw [h5]; decide)
    exact absurd this (by decide)
  rw [if_neg h5] at ht
  rw [preprocessWith, tokenize_eq_nil h] at ht
  simp only [if_pos rfl] at ht
  cases ht

/-- With no TERM tokens, the implicit-AND pass is the identity. -/
lemma insertAndAux_no_term : ∀ (ts : List BoolToken),
    (∀ t ∈ ts, t.kind ≠ BKind.term) → ∀ last, insertAndAux last ts = ts := by
  intro ts
  induction ts with
  | nil => intro _ last; rfl
  | cons t rest ih =>
    intro h last
    rw [insertAndAux, if_neg]
    · rw [ih (fun x hx => h x (List.mem_cons_of_mem t hx)) (some t.kind)]
    · intro hcon
      exact h t (List.mem_cons_self t rest) hcon.2

/-- Popping up to an LPAREN from an all-LPAREN stack pops nothing. -/
lemma popUntilLparen_all_lparen {stack : List BoolToken}
    (h : ∀ t ∈ stack, t.kind = BKind.lparen) :
    popUntilLparen stack = ([], stack) := by
  cases stack with
  | nil => rfl
  | cons s ss =>
    rw [popUntilLparen, if_pos (h s (List.mem_cons_self s ss))]

/-- Shunting-yard on parenthesis-only input emits, beyond the initial
output queue, only LPAREN tokens. -/
lemma toRpnAux_paren : ∀ (ts : List BoolToken) (out stack : List BoolToken),
    (∀ t ∈ ts, t.kind = BKind.lparen ∨ t.kind = BKind.rparen) →
    (∀ t ∈ stack, t.kind = BKind.lparen) →
    ∀ t ∈ toRpnAux ts out stack, t ∈ out ∨ t.kind = BKind.lparen := by
  intro ts
  induction ts with
  | nil =>
    intro out stack _ hstack t ht
    rw [toRpnAux] at ht
    rcases List.mem_append.mp ht with h | h
    · exact Or.inl h
    · exact Or.inr (hstack t h)
  | cons tk rest ih =>
    intro out stack hts hstack t ht
    obtain ⟨k, v⟩ := tk
    rcases hts ⟨k, v⟩ (List.mem_cons_self _ rest) with hk | hk
    · simp only at hk
      subst hk
      rw [toRpnAux] at ht
      rcases ih out (⟨BKind.lparen, v⟩ :: stack)
          (fun x hx => hts x (List.mem_cons_of_mem _ hx))
          (fun x hx => by
            rcases List.mem_cons.mp hx with h1 | h1
            · rw [h1]
            · exact hstack x h1) t ht with h | h
      · exact Or.inl h
      · exact Or.inr h
    · simp only at hk
      subst hk
      rw [toRpnAux] at ht
      rw [popUntilLparen_all_lparen hstack] at ht
      simp only [List.append_nil] at ht
      cases stack with
      | nil =>
        exact ih out [] (fun x hx => hts x (List.mem_cons_of_mem _ hx)) (by intro x hx; cases hx) t ht
      | cons s ss =>
        rw [dropLparenHead, if_pos (hstack s (List.mem_cons_self s ss))] at ht
        exact ih out ss (fun x hx => hts x (List.mem_cons_of_mem _ hx))
          (fun x hx => hstack x (List.mem_cons_of_mem s hx)) t ht

/-- Evaluating an LPAREN-only RPN leaves the stack unchanged. -/
lemma foldl_evalStep_lparen {d : List String} : ∀ (rpn : List BoolToken) (stack : List Bool),
    (∀ t ∈ rpn, t.kind = BKind.lparen) →
    rpn.foldl (evalStep d) stack = stack := by
  intro rpn
  induction rpn with
  | nil => intro stack _; rfl
  | cons t rest ih =>
    intro stack h
    rw [List.foldl_cons]
    have hstep : evalStep d stack t = stack := by
      obtain ⟨k, v⟩ := t
      have hk := h ⟨k, v⟩ (List.mem_cons_self _ rest)
      simp only at hk
      subst hk
      rfl
    rw [hstep]
    exact ih stack fun x hx => h x (List.mem_cons_of_mem t hx)

/-- An LPAREN-only RPN evaluates to `false` on every document. -/
lemma eval_rpn_lparen {d : List String} {rpn : List BoolToken}
    (h : ∀ t ∈ rpn, t.kind = BKind.lparen) : eval_rpn rpn d = false := by
  rw [eval_rpn, foldl_evalStep_lparen rpn [] h]

/-- A query without alphanumeric characters tokenizes to parenthesis
tokens only, so `BooleanModel.search` matches nothing. -/
lemma boolean_search_no_alnum {corpus : List (String × List String)} {q : String}
    {k : Option ℕ} (h : ∀ c ∈ q.data, isTokChar c = false) :
    boolean_search corpus q k = [] := by
  have hparts : ∀ t ∈ tokenize_boolean_query q,
      t.kind = BKind.lparen ∨ t.kind = BKind.rparen := by
    intro t ht
    rw [tokenize_boolean_query] at ht
    by_cases hraw : stripChars q.data = []
    · rw [if_pos hraw] at ht
      cases ht
    · rw [if_neg hraw] at ht
      simp only [List.mem_flatten, List.mem_map] at ht
      obtain ⟨l, ⟨part, hpart, hl⟩, htl⟩ := ht
      subst hl
      apply classifyPart_nonTok ?_ t htl
      intro c hc
      rcases splitPartsAux_chars (stripChars q.data) [] part hpart c hc with h2 | h2
      · cases h2
      · exact h c (stripChars_subset h2)
  by_cases ht : tokenize_boolean_query q = []
  · simp only [boolean_search, if_pos ht]
  · have hins : insertAndAux none (tokenize_boolean_query q) = tokenize_boolean_query q :=
      insertAndAux_no_term _ (fun t htm => by
        rcases hparts t htm with h1 | h1 <;> (rw [h1]; intro hcon; cases hcon)) none
    apply boolean_search_eq_nil
    intro toks
    apply eval_rpn_lparen
    intro t htm
    rw [hins] at htm
    rcases toRpnAux_paren (tokenize_boolean_query q) [] [] hparts
        (by intro x hx; cases hx) t htm with h1 | h1
    · cases h1
    · exact h1

/-- Embeds `filterMap` of a function that never succeeds is empty. -/
lemma filterMap_eq_nil_of_none {α β : Type} (l : List α) (f : α → Option β)
    (h : ∀ a, f a = none) : l.filterMap f = [] := by
  induction l with
  | nil => rfl
  | cons x xs ih => rw [List.filterMap_cons, h x, ih]

/-- A stable descending sort of an all-equal-score list is the
identity. -/
lemma insertionSort_const_score : ∀ (l : List (String × ℝ)),
    (∀ p ∈ l, p.2 = 0) → l.insertionSort byScoreDesc = l := by
  intro l
  induction l with
  | nil => intro _; rfl
  | cons x xs ih =>
    intro h
    rw [List.insertionSort, ih fun p hp => h p (List.mem_cons_of_mem x hp)]
    cases xs with
    | nil => rfl
    | cons y ys =>
      rw [List.orderedInsert, if_pos]
      show y.2 ≤ x.2
      rw [h x (List.mem_cons_self x _), h y (List.mem_cons_of_mem x (List.mem_cons_self y ys))]

/-- With no query tokens, BM25 creates no score entries at all. -/
lemma bm25_empty {corpus : List (String × List String)} {k1 b : ℝ} {q : String}
    {k : Option ℕ} (hq : preprocess q = []) :
    bm25_search corpus k1 b q k = [] := by
  simp only [bm25_search, bm25_search_all, hq, List.filter_nil]
  rw [filterMap_eq_nil_of_none _ _ (fun p => if_pos trivial)]
  cases k <;> simp [takeOpt, List.insertionSort]

/-- The TF-IDF vector of an empty token list is all zeros. -/
lemma tf_idf_vector_nil (corpus : List (String × List String)) (vocab : List String) :
    tf_idf_vector corpus vocab [] = vocab.map fun _ => 0 := by
  simp [tf_idf_vector]

/-- The Euclidean norm of an all-zero vector is zero. -/
lemma vecNorm_zeros (vocab : List String) :
    vecNorm (vocab.map fun _ => (0 : ℝ)) = 0 := by
  rw [vecNorm, List.map_map]
  rw [List.sum_eq_zero (by simp)]
  exact Real.sqrt_zero

/-- With no query tokens the query norm is zero, so every document
scores exactly `0.0` and the corpus order is preserved. -/
lemma vsm_empty {corpus : List (String × List String)} {vocab : List String}
    {q : String} {k : Option ℕ} (hq : preprocess q = []) :
    vsm_search corpus vocab q k = takeOpt k (corpus.map fun p => (p.1, (0 : ℝ))) := by
  simp only [vsm_search, hq, tf_idf_vector_nil, vecNorm_zeros, lt_irrefl, false_and,
    if_false]
  rw [insertionSort_const_score _ (fun p hp => by
    obtain ⟨x, _, hx⟩ := List.mem_map.mp hp
    rw [← hx])]

/-- With no query tokens every log-likelihood is the empty sum `0.0`
and the corpus order is preserved. -/
lemma lm_empty {corpus : List (String × List String)} {lam : ℝ}
    {q : String} {k : Option ℕ} (hq : preprocess q = []) :
    lm_search corpus lam q k = takeOpt k (corpus.map fun p => (p.1, (0 : ℝ))) := by
  have hdoc : ∀ dt : List String, lm_doc_score corpus lam [] dt = 0 := by
    intro dt
    simp [lm_doc_score]
  simp only [lm_search, hq, hdoc]
  rw [insertionSort_const_score _ (fun p hp => by
    obtain ⟨x, _, hx⟩ := List.mem_map.mp hp
    rw [← hx])]

/-! ## Claim C10 -/

/-- C10 (corrected): for every query with no alphanumeric characters —
so the shared preprocessing yields no tokens — the four models disagree
at the public interface exactly as claimed: Boolean and BM25 return the
empty list while the vector-space and language models return an entry
for every document with score exactly `0.0` (truncated by `top_k`).
The hypothesis is strengthened from "preprocessing yields no tokens" to
"no alphanumeric characters": the boolean parser sees the raw query
before stopword filtering, and an all-stopword query such as `"NOT"`
(see the counterexample) is parsed as an operator and can match every
document. -/
theorem c10_empty_query_models
    (corpus : List (String × List String)) (vocab : List String)
    (k1 b lam : ℝ) (k : Option ℕ) (q : String)
    (hq : ∀ c ∈ q.data, isTokChar c = false) :
    preprocess q = [] ∧
    boolean_search corpus q k = [] ∧
    bm25_search corpus k1 b q k = [] ∧
    vsm_search corpus vocab q k = takeOpt k (corpus.map fun p => (p.1, (0 : ℝ))) ∧
    lm_search corpus lam q k = takeOpt k (corpus.map fun p => (p.1, (0 : ℝ))) := by
  have hpre := preprocess_eq_nil hq
  exact ⟨hpre, boolean_search_no_alnum hq, bm25_empty hpre, vsm_empty hpre, lm_empty hpre⟩

/-- C10 witness: the empty query on a two-document corpus with
`top_k = none`. -/
theorem c10_witness :
    preprocess "" = [] ∧
    boolean_search [("d1", ["x"]), ("d2", ["y"])] "" none = [] ∧
    bm25_search [("d1", ["x"]), ("d2", ["y"])] (3 / 2) (3 / 4) "" none = [] ∧
    vsm_search [("d1", ["x"]), ("d2", ["y"])] ["x", "y"] "" none =
      takeOpt none ([("d1", ["x"]), ("d2", ["y"])].map fun p => (p.1, (0 : ℝ))) ∧
    lm_search [("d1", ["x"]), ("d2", ["y"])] (1 / 2) "" none =
      takeOpt none ([("d1", ["x"]), ("d2", ["y"])].map fun p => (p.1, (0 : ℝ))) :=
  c10_empty_query_models [("d1", ["x"]), ("d2", ["y"])] ["x", "y"] (3 / 2) (3 / 4)
    (1 / 2) none "" (fun c hc => by cases hc)

/-- C10 counterexample: the query `"NOT"` preprocesses to no tokens
(it is a stopword), yet `BooleanModel.search` does not return the
empty list — the raw token is parsed as the NOT operator, underflow
reads `false`, and every document matches. -/
theorem c10_counterexample :
    preprocess "NOT" = [] ∧ boolean_search [("d1", ["x"])] "NOT" none ≠ [] := by
  refine ⟨by decide, ?_⟩
  rw [show boolean_search [("d1", ["x"])] "NOT" none = [("d1", (1 : ℝ))] from rfl]
  exact List.cons_ne_nil _ _

end SearchSys
